import Mathlib

/-!
Shallow embedding of the DnD DM bot (`bot.py`): the session store
(per-guild characters and combats), the dice engine, the combat tracker,
the character resource operations (death saves, level up, long rest,
spell casting) and the JSON persistence round trip.

Python dicts are modelled as association lists with unique keys and
insertion-order semantics; Python `random.randint` is modelled by an
injected source `rng` reduced into range with `%`, so every value the
model can produce is a value `randint` can produce and vice versa.
-/

set_option maxHeartbeats 1000000

namespace DndBot

/-- Python `s.lower()` (over the character list, so that it computes by
kernel reduction). -/
def strLower (s : String) : String := ⟨s.data.map Char.toLower⟩

/-- Association list modelling a Python dict lookup `d.get(k)`:
the first binding of a key wins (keys are unique in a real dict). -/
def dictGet {K V : Type} [DecidableEq K] (k : K) : List (K × V) → Option V
  | [] => none
  | kv :: rest => if kv.1 = k then some kv.2 else dictGet k rest

/-- Python `d.get(k, v₀)`. -/
def dictGetD {K V : Type} [DecidableEq K] (k : K) (d : List (K × V)) (v₀ : V) : V :=
  (dictGet k d).getD v₀

/-- Python `d[k] = v`: replaces the binding in place if the key exists
(keeping its position, as Python dicts keep insertion order), otherwise
appends it at the end. -/
def dictSet {K V : Type} [DecidableEq K] (k : K) (v : V) : List (K × V) → List (K × V)
  | [] => [(k, v)]
  | kv :: rest => if kv.1 = k then (k, v) :: rest else kv :: dictSet k v rest

/-- Python `del d[k]`: removes the first binding of the key. -/
def dictDel {K V : Type} [DecidableEq K] (k : K) : List (K × V) → List (K × V)
  | [] => []
  | kv :: rest => if kv.1 = k then rest else kv :: dictDel k rest

/-- After a JSON round trip a slot key is a string, while the running
program uses Python ints; a slot key is one or the other. -/
abbrev SlotKey := Sum ℤ String

/-- The `death_saves` record of a character. -/
structure DeathSaves where
  success : ℤ
  failure : ℤ
deriving DecidableEq, Repr

/-- A stored character, mirroring the dict built by `generate_character`. -/
structure Character where
  name : String
  race : String
  cls : String
  level : ℤ
  hp : ℤ
  max_hp : ℤ
  ac : ℤ
  stats : List (String × ℤ)
  skills : List String
  spells : List String
  slots : List (SlotKey × ℤ)
  inventory : List String
  death_saves : DeathSaves
deriving DecidableEq, Repr

/-- A combatant entry of an encounter, mirroring the dict built by
`cmd_combat_add`. -/
structure Combatant where
  name : String
  hp : ℤ
  initiative : ℤ
  effects : List String
  ac : ℤ
deriving DecidableEq, Repr

/-- One guild's combat: `{"turn": int, "order": [entities...]}`. -/
structure Combat where
  turn : ℤ
  order : List Combatant
deriving DecidableEq, Repr

/-- The session store: `characters` maps a guild id to a map from
lower-cased character name to character, `combats` maps a guild id to
its combat. -/
structure Store where
  characters : List (String × List (String × Character))
  combats : List (String × Combat)
deriving DecidableEq, Repr

/-- Replaces (or inserts) one character of one guild, as the Python code
does by mutating `characters[gid][name_lower]`. -/
def setChar (st : Store) (gid nameLower : String) (c : Character) : Store :=
  { st with characters :=
      dictSet gid (dictSet nameLower c (dictGetD gid st.characters [])) st.characters }

/-- Deletes one character of one guild (`del characters[gid][name_lower]`). -/
def delChar (st : Store) (gid nameLower : String) : Store :=
  { st with characters :=
      dictSet gid (dictDel nameLower (dictGetD gid st.characters [])) st.characters }

/-- Reads one character of one guild
(`characters.get(gid, {}).get(name_lower)`). -/
def getChar (st : Store) (gid nameLower : String) : Option Character :=
  dictGet nameLower (dictGetD gid st.characters [])

/-! ## Dice engine (`parse_simple_dice`) -/

/-- `expr.replace(" ", "")`. -/
def stripSpaces (cs : List Char) : List Char := cs.filter (fun c => c ≠ ' ')

/-- `expr.lower()`. -/
def lowerChars (cs : List Char) : List Char := cs.map Char.toLower

/-- Numeric value of a digit string, as Python `int` reads it
(leading zeros allowed). -/
def digitsVal (cs : List Char) : ℕ := cs.foldl (fun acc c => 10 * acc + (c.toNat - 48)) 0

/-- The regex stage of `parse_simple_dice`: a full match of
`(\d*)d(\d+)([+-]\d+)?` against the space-stripped, lower-cased
expression, yielding the count (default 1), the sides, and the signed
modifier (default 0). `none` is a malformed expression. -/
def matchDice (cs0 : List Char) : Option (ℕ × ℕ × ℤ) :=
  let cs := lowerChars (stripSpaces cs0)
  let pre := cs.takeWhile Char.isDigit
  match cs.dropWhile Char.isDigit with
  | 'd' :: rest =>
    let mid := rest.takeWhile Char.isDigit
    if mid.isEmpty then none
    else
      let n := if pre.isEmpty then 1 else digitsVal pre
      let sides := digitsVal mid
      match rest.dropWhile Char.isDigit with
      | [] => some (n, sides, 0)
      | c :: ds =>
        if (c = '+' ∨ c = '-') ∧ ¬ds.isEmpty ∧ ds.all Char.isDigit then
          some (n, sides, if c = '-' then -(digitsVal ds : ℤ) else (digitsVal ds : ℤ))
        else none
  | _ => none

/-- Model of `random.randint(1, sides)` for the i-th die: an injected
source `rng` reduced into `[1, sides]` with `%`. -/
def randint1 (rng : ℕ → ℕ) (i : ℕ) (sides : ℕ) : ℤ := 1 + (rng i % sides : ℕ)

/-- The result dict of `parse_simple_dice`. -/
structure DiceResult where
  n : ℕ
  sides : ℕ
  mod : ℤ
  rolls : List ℤ
  total : ℤ
deriving DecidableEq, Repr

/-- `parse_simple_dice(expr)`: regex-match the expression, reject counts
outside `[1, 200]` and sides outside `[1, 2000]`, then roll `n` dice and
total them with the modifier. `none` is the InvalidInput result. -/
def parse_simple_dice (rng : ℕ → ℕ) (s : String) : Option DiceResult :=
  match matchDice s.data with
  | none => none
  | some (n, sides, mod) =>
    if n = 0 ∨ n > 200 ∨ sides = 0 ∨ sides > 2000 then none
    else
      let rolls := (List.range n).map (fun i => randint1 rng i sides)
      some ⟨n, sides, mod, rolls, rolls.sum + mod⟩

/-! ## Combat tracker -/

/-- Stable insertion of a combatant into a list sorted by decreasing
initiative: the new element goes after every strictly greater element
and before the first element whose initiative is not greater, so
previously inserted equal-initiative elements stay in front. -/
def insertDesc (x : Combatant) : List Combatant → List Combatant
  | [] => [x]
  | y :: ys => if x.initiative < y.initiative then y :: insertDesc x ys else x :: y :: ys

/-- Model of Python
`order.sort(key=lambda x: x["initiative"], reverse=True)`: a stable sort
by initiative descending. Python's sort is stable, and a stable sort for
a fixed total preorder is extensionally unique, so this insertion sort
computes the same list. -/
def sortDesc : List Combatant → List Combatant
  | [] => []
  | x :: xs => insertDesc x (sortDesc xs)

/-- The combatant dict built by `cmd_combat_add`: effects start empty and
the armor class is `int(ac) if ac else 10`, so both an omitted argument
(Python `None`) and an explicit `0` — Python falsy values — store 10. -/
def mkCombatant (name : String) (hp initiative : ℤ) (ac : Option ℤ) : Combatant :=
  { name := name, hp := hp, initiative := initiative, effects := [],
    ac := match ac with
          | none => 10
          | some v => if v = 0 then 10 else v }

/-- `ensure_combat` then `cmd_combat_add`: fetch (or create empty) the
guild's combat, append the new combatant and re-sort the whole order by
initiative descending. -/
def cmd_combat_add (st : Store) (gid name : String) (hp initiative : ℤ) (ac : Option ℤ) :
    Store :=
  let combat := dictGetD gid st.combats ⟨0, []⟩
  let ent := mkCombatant name hp initiative ac
  { st with combats :=
      dictSet gid { combat with order := sortDesc (combat.order ++ [ent]) } st.combats }

/-- Result surface of `cmd_combat_damage`. -/
inductive DamageResult where
  | noEncounter
  | notFound
  | applied (newHp : ℤ)
deriving DecidableEq, Repr

/-- The loop of `cmd_combat_damage`: subtract `amount` from the hp of the
first combatant whose name matches case-insensitively, returning the
updated order and the combatant's new hp. -/
def damageFirst (nameLower : String) (amount : ℤ) :
    List Combatant → Option (List Combatant × ℤ)
  | [] => none
  | e :: es =>
    if strLower e.name = nameLower then
      some ({ e with hp := e.hp - amount } :: es, e.hp - amount)
    else
      match damageFirst nameLower amount es with
      | none => none
      | some (es', h) => some (e :: es', h)

/-- `cmd_combat_damage`: requires an active encounter, locates the
combatant by case-insensitive name, subtracts the damage without
clamping, and — when the resulting hp is ≤ 0 — if a stored character of
the same lower-cased name exists in the guild, forces that character's
hp to exactly 0 and resets its death saves. -/
def cmd_combat_damage (st : Store) (gid name : String) (amount : ℤ) :
    DamageResult × Store :=
  match dictGet gid st.combats with
  | none => (.noEncounter, st)
  | some combat =>
    match damageFirst (strLower name) amount combat.order with
    | none => (.notFound, st)
    | some (order', newHp) =>
      let st1 : Store :=
        { st with combats := dictSet gid { combat with order := order' } st.combats }
      if newHp ≤ 0 then
        match getChar st1 gid (strLower name) with
        | some c =>
          (.applied newHp,
           setChar st1 gid (strLower name) { c with hp := 0, death_saves := ⟨0, 0⟩ })
        | none => (.applied newHp, st1)
      else (.applied newHp, st1)

/-! ## Death saves (`cmd_deathsave`) -/

/-- Result surface of `cmd_deathsave`. -/
inductive DeathSaveResult where
  | notFound
  | stateConflict
  | revived
  | stabilized
  | dead
  | progress (success failure : ℤ)
deriving DecidableEq, Repr

/-- The counter update of one non-20 death-save roll: a 1 adds two
failures, 10 to 19 adds one success, 2 to 9 adds one failure. -/
def dsStep (roll : ℤ) (ds : DeathSaves) : DeathSaves :=
  if roll = 1 then { ds with failure := ds.failure + 2 }
  else if roll ≥ 10 then { ds with success := ds.success + 1 }
  else { ds with failure := ds.failure + 1 }

/-- `cmd_deathsave`: requires the character to exist and be at hp ≤ 0.
A natural 20 revives at 1 hp with both counters reset; otherwise the
counters advance by `dsStep`; three successes reset the counters with
the character kept (still at hp ≤ 0); three failures delete the
character from the store. `roll` stands for `random.randint(1, 20)`. -/
def cmd_deathsave (st : Store) (gid name : String) (roll : ℤ) :
    DeathSaveResult × Store :=
  match getChar st gid (strLower name) with
  | none => (.notFound, st)
  | some char =>
    if char.hp > 0 then (.stateConflict, st)
    else if roll = 20 then
      (.revived, setChar st gid (strLower name) { char with hp := 1, death_saves := ⟨0, 0⟩ })
    else
      let ds := dsStep roll char.death_saves
      if ds.success ≥ 3 then
        (.stabilized, setChar st gid (strLower name) { char with death_saves := ⟨0, 0⟩ })
      else if ds.failure ≥ 3 then
        (.dead, delChar st gid (strLower name))
      else
        (.progress ds.success ds.failure,
         setChar st gid (strLower name) { char with death_saves := ds })

/-! ## Leveling and rest -/

/-- The `LEVEL_UP_HP` table: hp die rolled on level up, by class. -/
def LEVEL_UP_HP : List (String × ℕ) :=
  [("wizard", 4), ("sorcerer", 6), ("warlock", 8), ("cleric", 6), ("fighter", 10),
   ("rogue", 8), ("paladin", 10), ("ranger", 10), ("barbarian", 12)]

/-- The `CLASS_SPELL_SLOTS` table: default slot mapping by class. Note
that paladin, fighter and rogue are present with an empty mapping, so
they count as listed for the `cls in CLASS_SPELL_SLOTS` test. -/
def CLASS_SPELL_SLOTS : List (String × List (SlotKey × ℤ)) :=
  [("wizard", [(.inl 1, 2), (.inl 2, 0), (.inl 3, 0)]),
   ("sorcerer", [(.inl 1, 2)]),
   ("cleric", [(.inl 1, 2)]),
   ("warlock", [(.inl 1, 1)]),
   ("paladin", []),
   ("fighter", []),
   ("rogue", [])]

/-- The source's notion of a spell-capable class: a key of
`CLASS_SPELL_SLOTS` (which includes paladin, fighter and rogue, whose
default mapping is empty). -/
def spellCapable (cls : String) : Prop :=
  (dictGet (strLower cls) (CLASS_SPELL_SLOTS)).isSome

instance (cls : String) : Decidable (spellCapable cls) := by
  unfold spellCapable; infer_instance

/-- `get_con_mod`: Python floor division `(stat - 10) // 2`. -/
def get_con_mod (stat : ℤ) : ℤ := (stat - 10).fdiv 2

/-- `level_up_character`: level += 1; hp gain is `randint(1, hd)` for the
class hp die (default 6) plus the CON modifier, floored at 1; max hp
grows by the gain and hp is set to the new max; classes listed in
`CLASS_SPELL_SLOTS` get one more level-1 slot. Death saves are not
touched. `rng` stands for the random source behind `randint`. -/
def level_up_character (rng : ℕ) (st : Store) (gid name : String) : Option Store :=
  match getChar st gid (strLower name) with
  | none => none
  | some char =>
    let cls := strLower char.cls
    let hd := dictGetD cls LEVEL_UP_HP 6
    let roll : ℤ := 1 + (rng % hd : ℕ)
    let gain0 := roll + get_con_mod (dictGetD "CON" char.stats 10)
    let hp_gain := if gain0 < 1 then 1 else gain0
    let new_max := char.max_hp + hp_gain
    let slots' :=
      if (dictGet cls (CLASS_SPELL_SLOTS)).isSome then
        dictSet (.inl 1) (dictGetD (.inl 1) char.slots 0 + 1) char.slots
      else char.slots
    some (setChar st gid (strLower name)
      { char with level := char.level + 1, max_hp := new_max, hp := new_max,
                  slots := slots' })

/-- `cmd_longrest`: replaces the slot mapping with the class defaults and
sets hp to max hp. Death saves are not touched. -/
def cmd_longrest (st : Store) (gid name : String) : Option Store :=
  match getChar st gid (strLower name) with
  | none => none
  | some char =>
    some (setChar st gid (strLower name)
      { char with slots := dictGetD (strLower char.cls) (CLASS_SPELL_SLOTS) [],
                  hp := char.max_hp })

/-! ## Spell casting (`cast_spell_for_char`) -/

/-- The fields of a spell detail fetched from the external provider that
the cast path reads. -/
structure SpellDetail where
  level : ℤ
  damage_at_slot_level : Option (List (String × String))
  damage_at_character_level : Option (List (String × String))
  desc : List String
deriving DecidableEq, Repr

/-- Decimal rendering of an integer, as Python `str(i)`. -/
def intToStr (i : ℤ) : String := toString i

/-- Python `s.strip()` over the character list. -/
def trimChars (cs : List Char) : List Char :=
  ((cs.dropWhile Char.isWhitespace).reverse.dropWhile Char.isWhitespace).reverse

/-- `to_api_slug`: strip, lower-case, spaces to hyphens. -/
def to_api_slug (s : String) : String :=
  ⟨((trimChars s.data).map Char.toLower).map (fun c => if c = ' ' then '-' else c)⟩

/-- `get_damage_expr_from_spell`: if the slot-level damage table is a
dict and the requested slot level is truthy, return that table's entry
for the slot level as a string key — even when the entry is absent;
otherwise take the first value of the character-level damage table if it
is a dict with values; otherwise no damage expression. -/
def get_damage_expr_from_spell (detail : SpellDetail) (slot_level : ℤ) : Option String :=
  if detail.damage_at_slot_level.isSome ∧ slot_level ≠ 0 then
    dictGet (intToStr slot_level) (detail.damage_at_slot_level.getD [])
  else
    match detail.damage_at_character_level with
    | some tbl => (tbl.map Prod.snd).head?
    | none => none

/-- Result surface of `cast_spell_for_char`. -/
inductive CastResult where
  | notFound
  | unknownSpell
  | providerFail
  | insufficientSlot (level : ℤ)
  | castDamage (rolls : List ℤ) (total : ℤ)
  | castDamageRaw (expr : String)
  | castDesc
deriving DecidableEq, Repr

/-- The tail of a cast after the slot check: resolve a damage expression
and either roll it, echo it unparsed, or fall back to the description. -/
def resolveDamage (rng : ℕ → ℕ) (detail : SpellDetail) (slot_level : ℤ) : CastResult :=
  match get_damage_expr_from_spell detail slot_level with
  | some expr =>
    match parse_simple_dice rng expr with
    | some r => .castDamage r.rolls r.total
    | none => .castDamageRaw expr
  | none => .castDesc

/-- `cast_spell_for_char` (as invoked by `cmd_cast`, with no explicit
slot level): look the character up, find the known spell by
case-insensitive name, fetch its detail from the provider, and — when
the spell's level is positive — consume one slot at that level before
any damage resolution (failing with InsufficientResource, and changing
nothing, when no slot is left). `provider` stands for the external spell
API, `rng` for the damage dice source. -/
def cast_spell_for_char (provider : String → Option SpellDetail) (rng : ℕ → ℕ)
    (st : Store) (gid name spell_name : String) : CastResult × Store :=
  match getChar st gid (strLower name) with
  | none => (.notFound, st)
  | some char =>
    match char.spells.find? (fun s => strLower s = strLower spell_name) with
    | none => (.unknownSpell, st)
    | some found =>
      match provider (to_api_slug found) with
      | none => (.providerFail, st)
      | some detail =>
        let level := detail.level
        if level > 0 then
          let available := dictGetD (.inl level) char.slots 0
          if available ≤ 0 then (.insufficientSlot level, st)
          else
            let st1 := setChar st gid (strLower name)
              { char with slots := dictSet (.inl level) (available - 1) char.slots }
            (resolveDamage rng detail level, st1)
        else (resolveDamage rng detail level, st)

/-! ## Persistence (`save_data` then `load_data`) -/

/-- What the JSON round trip does to a slot key: JSON object keys are
strings, so `json.dump` renders a Python int key as its decimal string
and `json.load` reads it back as a string. -/
def slotKeyStr : SlotKey → String
  | .inl i => intToStr i
  | .inr s => s

/-- JSON round trip of a slot mapping: every key comes back as a string. -/
def saveLoadSlots (slots : List (SlotKey × ℤ)) : List (SlotKey × ℤ) :=
  slots.map (fun kv => (.inr (slotKeyStr kv.1), kv.2))

/-- JSON round trip of a character: the slot mapping is the only part
with non-string keys, everything else is string-keyed dicts, lists,
strings and ints, which JSON preserves. -/
def saveLoadChar (c : Character) : Character :=
  { c with slots := saveLoadSlots c.slots }

/-- `save_data` followed by `load_data`: the session store after being
dumped to JSON and parsed back. -/
def save_load (st : Store) : Store :=
  { characters :=
      st.characters.map (fun g => (g.1, g.2.map (fun nc => (nc.1, saveLoadChar nc.2)))),
    combats := st.combats }

/-! ## Concrete example data used by witnesses and counterexamples -/

/-- A dying fighter with clean death-save counters. -/
def charC1 : Character :=
  { name := "Bob", race := "human", cls := "fighter", level := 1, hp := 0, max_hp := 8,
    ac := 16, stats := [("CON", 10)], skills := [], spells := [], slots := [],
    inventory := [], death_saves := ⟨0, 0⟩ }

/-- A one-guild store holding `charC1`. -/
def storeC1 : Store := ⟨[("g", [("bob", charC1)])], []⟩

/-- A dying fighter with partially advanced death-save counters. -/
def charC3 : Character :=
  { name := "Ash", race := "human", cls := "fighter", level := 1, hp := 0, max_hp := 5,
    ac := 16, stats := [("CON", 10)], skills := [], spells := [], slots := [],
    inventory := [], death_saves := ⟨1, 1⟩ }

/-- A one-guild store holding `charC3`. -/
def storeC3 : Store := ⟨[("g", [("ash", charC3)])], []⟩

/-- The character `charC3` as level-up leaves it (with the random
source 0): hp raised to the new max, counters untouched. -/
def charC3up : Character :=
  { charC3 with level := 2, max_hp := 6, hp := 6, slots := [(.inl 1, 1)] }

/-- The one-guild store holding `charC3up`. -/
def storeC3up : Store := ⟨[("g", [("ash", charC3up)])], []⟩

/-- A freshly generated wizard: its slot mapping is keyed by Python
ints, as `CLASS_SPELL_SLOTS` builds it. -/
def charC4 : Character :=
  { name := "Wiz", race := "elf", cls := "wizard", level := 1, hp := 6, max_hp := 6,
    ac := 12, stats := [("CON", 10)], skills := [], spells := [],
    slots := [(.inl 1, 2), (.inl 2, 0), (.inl 3, 0)], inventory := [],
    death_saves := ⟨0, 0⟩ }

/-- A one-guild store holding `charC4`. -/
def storeC4 : Store := ⟨[("g", [("wiz", charC4)])], []⟩

/-- The same wizard after a JSON round trip: slot keys are strings. -/
def charC4s : Character := { charC4 with slots := [(.inr "1", 2), (.inr "2", 0), (.inr "3", 0)] }

/-- A one-guild store holding `charC4s`. -/
def storeC4s : Store := ⟨[("g", [("wiz", charC4s)])], []⟩

/-- A caster knowing one spell, with a single level-2 slot. -/
def charC6 : Character :=
  { name := "Mia", race := "elf", cls := "wizard", level := 3, hp := 10, max_hp := 10,
    ac := 12, stats := [("CON", 10)], skills := [], spells := ["Zap"],
    slots := [(.inl 2, 1)], inventory := [], death_saves := ⟨0, 0⟩ }

/-- A one-guild store holding `charC6`. -/
def storeC6 : Store := ⟨[("g", [("mia", charC6)])], []⟩

/-- A provider knowing a single level-2 spell with no damage tables. -/
def providerC6 : String → Option SpellDetail :=
  fun s => if s = "zap" then some ⟨2, none, none, ["a zap"]⟩ else none

/-- The caster `charC6` after its one level-2 slot is consumed. -/
def charC6after : Character := { charC6 with slots := [(.inl 2, 0)] }

/-- The one-guild store holding `charC6after`. -/
def storeC6after : Store := ⟨[("g", [("mia", charC6after)])], []⟩

/-- A one-guild store with one combatant and a matching character, used
by the combat-damage witness. -/
def storeC7 : Store :=
  ⟨[("g", [("bob", charC1)])],
   [("g", ⟨0, [⟨"Wolf", 11, 14, [], 13⟩, ⟨"Bob", 3, 12, [], 16⟩]⟩)]⟩

/-! ## Lemmas about the dict model -/

theorem dictGet_set_self {K V : Type} [DecidableEq K] (k : K) (v : V) (d : List (K × V)) :
    dictGet k (dictSet k v d) = some v := by
  induction d with
  | nil => simp [dictGet, dictSet]
  | cons kv rest ih =>
    by_cases h : kv.1 = k <;> simp [dictGet, dictSet, h, ih]

theorem dictGet_set_ne {K V : Type} [DecidableEq K] (k k' : K) (v : V) (d : List (K × V))
    (h : k' ≠ k) : dictGet k' (dictSet k v d) = dictGet k' d := by
  induction d with
  | nil => simp [dictGet, dictSet, h, Ne.symm h]
  | cons kv rest ih =>
    by_cases hk : kv.1 = k
    · simp [dictGet, dictSet, hk, Ne.symm h]
    · simp only [dictSet, if_neg hk, dictGet]
      by_cases hk' : kv.1 = k' <;> simp [hk', ih]

theorem mem_of_dictGet {K V : Type} [DecidableEq K] {k : K} {v : V} {d : List (K × V)}
    (h : dictGet k d = some v) : (k, v) ∈ d := by
  induction d with
  | nil => simp [dictGet] at h
  | cons kv rest ih =>
    by_cases hk : kv.1 = k
    · simp only [dictGet, if_pos hk, Option.some.injEq] at h
      subst hk; subst h; exact List.mem_cons_self _ _
    · simp only [dictGet, if_neg hk] at h
      exact List.mem_cons_of_mem _ (ih h)

theorem dictGet_eq_none_of_not_mem {K V : Type} [DecidableEq K] {k : K} {d : List (K × V)}
    (h : k ∉ d.map Prod.fst) : dictGet k d = none := by
  induction d with
  | nil => rfl
  | cons kv rest ih =>
    simp only [List.map_cons, List.mem_cons, not_or] at h
    simp [dictGet, Ne.symm h.1, ih h.2]

theorem dictGet_del_self {K V : Type} [DecidableEq K] (k : K) (d : List (K × V))
    (hnd : (d.map Prod.fst).Nodup) : dictGet k (dictDel k d) = none := by
  induction d with
  | nil => rfl
  | cons kv rest ih =>
    simp only [List.map_cons, List.nodup_cons] at hnd
    by_cases hk : kv.1 = k
    · subst hk
      simp only [dictDel, if_pos rfl]
      exact dictGet_eq_none_of_not_mem hnd.1
    · simp only [dictDel, if_neg hk, dictGet]
      exact ih hnd.2

theorem getChar_setChar_self (st : Store) (gid nm : String) (c : Character) :
    getChar (setChar st gid nm c) gid nm = some c := by
  simp [getChar, setChar, dictGetD, dictGet_set_self]

theorem getChar_setChar_other (st : Store) (gid nm : String) (c : Character)
    (g n : String) (h : ¬(g = gid ∧ n = nm)) :
    getChar (setChar st gid nm c) g n = getChar st g n := by
  by_cases hg : g = gid
  · subst hg
    have hn : n ≠ nm := fun hn => h ⟨rfl, hn⟩
    simp [getChar, setChar, dictGetD, dictGet_set_self, dictGet_set_ne _ _ _ _ hn]
  · simp [getChar, setChar, dictGetD, dictGet_set_ne _ _ _ _ hg]

theorem getChar_delChar_self (st : Store) (gid nm : String)
    (hnd : ((dictGetD gid st.characters []).map Prod.fst).Nodup) :
    getChar (delChar st gid nm) gid nm = none := by
  show dictGet nm
    (dictGetD gid (dictSet gid (dictDel nm (dictGetD gid st.characters [])) st.characters) [])
    = none
  rw [dictGetD, dictGet_set_self, Option.getD_some]
  exact dictGet_del_self nm _ hnd

/-! ## C2: the dice engine -/

/-- C2: for every expression the regex stage reads as `NdS+M` (or
`NdS-M`) with N in [1, 200] and S in [1, 2000], `parse_simple_dice`
returns exactly N individual results, each in [1, S], with
total = sum(results) + M, for every random source; for N or S outside
those ranges (including N = 0), and for every malformed expression, it
returns the InvalidInput result `none`, with no partial result. -/
theorem dice_evaluate_spec (rng : ℕ → ℕ) (s : String) :
    (∀ n sides mod, matchDice s.data = some (n, sides, mod) →
      ((1 ≤ n ∧ n ≤ 200 ∧ 1 ≤ sides ∧ sides ≤ 2000) →
        ∃ r, parse_simple_dice rng s = some r ∧ r.rolls.length = n ∧
          (∀ x ∈ r.rolls, 1 ≤ x ∧ x ≤ (sides : ℤ)) ∧ r.total = r.rolls.sum + mod) ∧
      (¬(1 ≤ n ∧ n ≤ 200 ∧ 1 ≤ sides ∧ sides ≤ 2000) →
        parse_simple_dice rng s = none)) ∧
    (matchDice s.data = none → parse_simple_dice rng s = none) := by
  constructor
  · intro n sides mod h
    constructor
    · rintro ⟨h1, h2, h3, h4⟩
      refine ⟨⟨n, sides, mod, (List.range n).map (fun i => randint1 rng i sides),
        ((List.range n).map (fun i => randint1 rng i sides)).sum + mod⟩,
        ?_, by simp, ?_, rfl⟩
      · simp only [parse_simple_dice, h]
        rw [if_neg (by omega)]
      · intro x hx
        simp only [List.mem_map, List.mem_range] at hx
        obtain ⟨i, _, hi⟩ := hx
        have hlt : rng i % sides < sides := Nat.mod_lt _ (by omega)
        subst hi
        simp only [randint1]
        push_cast
        omega
    · intro hno
      simp only [parse_simple_dice, h]
      rw [if_pos (by omega)]
  · intro h
    simp [parse_simple_dice, h]

/-- Witness for C2 at the concrete expression "3d6+2". -/
theorem dice_evaluate_spec_witness :
    ∃ r, parse_simple_dice (fun i => i) "3d6+2" = some r ∧ r.rolls.length = 3 ∧
      (∀ x ∈ r.rolls, 1 ≤ x ∧ x ≤ (6 : ℤ)) ∧ r.total = r.rolls.sum + 2 :=
  ((dice_evaluate_spec (fun i => i) "3d6+2").1 3 6 2 (by decide)).1 (by decide)

/-! ## Lemmas about the stable descending sort -/

theorem mem_insertDesc {a x : Combatant} {l : List Combatant} :
    a ∈ insertDesc x l ↔ a = x ∨ a ∈ l := by
  induction l with
  | nil => simp [insertDesc]
  | cons y ys ih =>
    by_cases h : x.initiative < y.initiative
    · simp only [insertDesc, if_pos h, List.mem_cons, ih]
      tauto
    · simp only [insertDesc, if_neg h, List.mem_cons]

theorem pairwise_insertDesc {x : Combatant} {l : List Combatant}
    (hl : l.Pairwise (fun a b => b.initiative ≤ a.initiative)) :
    (insertDesc x l).Pairwise (fun a b => b.initiative ≤ a.initiative) := by
  induction l with
  | nil => simp [insertDesc]
  | cons y ys ih =>
    rw [List.pairwise_cons] at hl
    by_cases h : x.initiative < y.initiative
    · rw [insertDesc, if_pos h, List.pairwise_cons]
      refine ⟨?_, ih hl.2⟩
      intro a ha
      rcases mem_insertDesc.1 ha with rfl | ha
      · omega
      · exact hl.1 a ha
    · rw [insertDesc, if_neg h, List.pairwise_cons]
      refine ⟨?_, List.pairwise_cons.2 hl⟩
      intro a ha
      rcases List.mem_cons.1 ha with rfl | ha
      · omega
      · have := hl.1 a ha
        omega

theorem pairwise_sortDesc (l : List Combatant) :
    (sortDesc l).Pairwise (fun a b => b.initiative ≤ a.initiative) := by
  induction l with
  | nil => simp [sortDesc]
  | cons x xs ih => exact pairwise_insertDesc ih

theorem filter_insertDesc (k : ℤ) (x : Combatant) (l : List Combatant) :
    (insertDesc x l).filter (fun c => c.initiative = k) =
      (x :: l).filter (fun c => c.initiative = k) := by
  induction l with
  | nil => rfl
  | cons y ys ih =>
    by_cases h : x.initiative < y.initiative
    · rw [insertDesc, if_pos h]
      by_cases hy : y.initiative = k <;> by_cases hx : x.initiative = k
      · exact (by omega : False).elim
      · simp [List.filter_cons, hy, hx, ih]
      · simp [List.filter_cons, hy, hx, ih]
      · simp [List.filter_cons, hy, hx, ih]
    · rw [insertDesc, if_neg h]

theorem filter_sortDesc (k : ℤ) (l : List Combatant) :
    (sortDesc l).filter (fun c => c.initiative = k) =
      l.filter (fun c => c.initiative = k) := by
  induction l with
  | nil => rfl
  | cons x xs ih =>
    rw [sortDesc, filter_insertDesc, List.filter_cons, List.filter_cons, ih]

theorem mem_sortDesc {a : Combatant} {l : List Combatant} :
    a ∈ sortDesc l ↔ a ∈ l := by
  induction l with
  | nil => simp [sortDesc]
  | cons x xs ih =>
    rw [sortDesc, mem_insertDesc, ih, List.mem_cons]

/-! ## C8: order after addCombatant -/

/-- C8: after every addCombatant the guild's order is the stable
descending re-sort of the previous order with the new combatant
appended: it is sorted by initiative descending, and for every
initiative value the combatants holding it appear in their original
relative (insertion) order; in particular inserting initiatives
[5, 10, 5] in that order yields [10, 5, 5] with the tied pair in
insertion order. -/
theorem combat_add_sorted (st : Store) (gid name : String) (hp initiative : ℤ)
    (ac : Option ℤ) :
    (∃ combat',
      dictGet gid (cmd_combat_add st gid name hp initiative ac).combats = some combat' ∧
      combat'.order =
        sortDesc ((dictGetD gid st.combats ⟨0, []⟩).order ++ [mkCombatant name hp initiative ac]) ∧
      combat'.order.Pairwise (fun a b => b.initiative ≤ a.initiative) ∧
      (∀ k : ℤ, combat'.order.filter (fun c => c.initiative = k) =
        ((dictGetD gid st.combats ⟨0, []⟩).order ++
          [mkCombatant name hp initiative ac]).filter (fun c => c.initiative = k))) ∧
    (∃ cEx, dictGet "g"
        (cmd_combat_add (cmd_combat_add (cmd_combat_add ⟨[], []⟩ "g" "A" 20 5 none)
          "g" "B" 20 10 none) "g" "C" 20 5 none).combats = some cEx ∧
      cEx.order.map (fun e => (e.name, e.initiative)) = [("B", 10), ("A", 5), ("C", 5)]) := by
  constructor
  · refine ⟨{ turn := (dictGetD gid st.combats ⟨0, []⟩).turn,
              order := sortDesc ((dictGetD gid st.combats ⟨0, []⟩).order ++
                [mkCombatant name hp initiative ac]) },
      ?_, rfl, pairwise_sortDesc _, fun k => filter_sortDesc k _⟩
    simp [cmd_combat_add, dictGet_set_self]
  · exact ⟨⟨0, [⟨"B", 20, 10, [], 10⟩, ⟨"A", 20, 5, [], 10⟩, ⟨"C", 20, 5, [], 10⟩]⟩,
      by decide, by decide⟩

/-! ## C10: armor class default in addCombatant -/

/-- C10: the combatant stored by addCombatant has armor class 10 when
the ac argument is omitted (None) or equals 0 — both falsy in Python —
and the provided value otherwise, so the stored armor class is never 0;
the stored combatant is a member of the resulting order. -/
theorem combat_add_ac_spec (st : Store) (gid name : String) (hp initiative : ℤ)
    (ac : Option ℤ) :
    ((ac = none ∨ ac = some 0) → (mkCombatant name hp initiative ac).ac = 10) ∧
    (∀ v : ℤ, v ≠ 0 → ac = some v → (mkCombatant name hp initiative ac).ac = v) ∧
    (mkCombatant name hp initiative ac).ac ≠ 0 ∧
    (∃ combat',
      dictGet gid (cmd_combat_add st gid name hp initiative ac).combats = some combat' ∧
      mkCombatant name hp initiative ac ∈ combat'.order) := by
  refine ⟨?_, ?_, ?_, ?_⟩
  · rintro (rfl | rfl) <;> simp [mkCombatant]
  · rintro v hv rfl
    simp [mkCombatant, hv]
  · rcases ac with _ | v
    · simp [mkCombatant]
    · by_cases hv : v = 0 <;> simp [mkCombatant, hv]
  · refine ⟨{ turn := (dictGetD gid st.combats ⟨0, []⟩).turn,
              order := sortDesc ((dictGetD gid st.combats ⟨0, []⟩).order ++
                [mkCombatant name hp initiative ac]) },
      by simp [cmd_combat_add, dictGet_set_self], ?_⟩
    exact mem_sortDesc.2 (by simp)

/-- Witness for C10: an explicit armor class of 0 is stored as 10. -/
theorem combat_add_ac_spec_witness :
    (mkCombatant "goblin" 7 2 (some 0)).ac = 10 :=
  (combat_add_ac_spec ⟨[], []⟩ "g" "goblin" 7 2 (some 0)).1 (Or.inr rfl)

/-! ## C1: the death-save transition -/

/-- C1: for a stored character (with the data-model invariant that both
death-save counters are below 3) at hp ≤ 0, one deathsave roll behaves
as the transition table says: 20 revives at hp 1 with both counters
reset; 1 adds two failures; 10 to 19 adds one success; 2 to 9 adds one
failure; afterwards three successes reset both counters with the
character kept at its unchanged hp ≤ 0, and three failures delete the
character from the store. At hp > 0 the command fails with the
StateConflict result and changes nothing. -/
theorem deathsave_spec (st : Store) (gid name : String) (roll : ℤ) (char : Character)
    (hch : getChar st gid (strLower name) = some char)
    (hnd : ((dictGetD gid st.characters []).map Prod.fst).Nodup)
    (hroll : 1 ≤ roll ∧ roll ≤ 20)
    (hinv : char.death_saves.success < 3 ∧ char.death_saves.failure < 3) :
    (char.hp > 0 → cmd_deathsave st gid name roll = (.stateConflict, st)) ∧
    (char.hp ≤ 0 →
      (roll = 20 →
        ∃ st', cmd_deathsave st gid name roll = (.revived, st') ∧
          getChar st' gid (strLower name) =
            some { char with hp := 1, death_saves := ⟨0, 0⟩ }) ∧
      (roll = 1 → dsStep roll char.death_saves =
        { char.death_saves with failure := char.death_saves.failure + 2 }) ∧
      (10 ≤ roll → roll ≤ 19 → dsStep roll char.death_saves =
        { char.death_saves with success := char.death_saves.success + 1 }) ∧
      (2 ≤ roll → roll ≤ 9 → dsStep roll char.death_saves =
        { char.death_saves with failure := char.death_saves.failure + 1 }) ∧
      (roll ≠ 20 → (dsStep roll char.death_saves).success ≥ 3 →
        ∃ st', cmd_deathsave st gid name roll = (.stabilized, st') ∧
          ∃ c', getChar st' gid (strLower name) = some c' ∧
            c'.death_saves = ⟨0, 0⟩ ∧ c'.hp = char.hp ∧ c'.hp ≤ 0) ∧
      (roll ≠ 20 → (dsStep roll char.death_saves).failure ≥ 3 →
        ∃ st', cmd_deathsave st gid name roll = (.dead, st') ∧
          getChar st' gid (strLower name) = none) ∧
      (roll ≠ 20 → (dsStep roll char.death_saves).success < 3 →
        (dsStep roll char.death_saves).failure < 3 →
        ∃ st', cmd_deathsave st gid name roll =
            (.progress (dsStep roll char.death_saves).success
              (dsStep roll char.death_saves).failure, st') ∧
          ∃ c', getChar st' gid (strLower name) = some c' ∧
            c'.death_saves = dsStep roll char.death_saves ∧ c'.hp = char.hp)) := by
  obtain ⟨hr1, hr2⟩ := hroll
  obtain ⟨hs3, hf3⟩ := hinv
  constructor
  · intro hhp
    simp only [cmd_deathsave, hch, if_pos hhp]
  · intro hhp
    have hnp : ¬ char.hp > 0 := by omega
    refine ⟨?_, ?_, ?_, ?_, ?_, ?_, ?_⟩
    · rintro rfl
      refine ⟨setChar st gid (strLower name) { char with hp := 1, death_saves := ⟨0, 0⟩ },
        ?_, getChar_setChar_self ..⟩
      simp [cmd_deathsave, hch, hnp]
    · intro h1
      simp [dsStep, h1]
    · intro ha hb
      rw [dsStep, if_neg (by omega), if_pos (by omega)]
    · intro ha hb
      rw [dsStep, if_neg (by omega), if_neg (by omega)]
    · intro h20 hs
      refine ⟨setChar st gid (strLower name) { char with death_saves := ⟨0, 0⟩ },
        ?_, { char with death_saves := ⟨0, 0⟩ }, getChar_setChar_self .., rfl, rfl, hhp⟩
      simp only [cmd_deathsave, hch]
      rw [if_neg hnp, if_neg h20, if_pos hs]
    · intro h20 hf
      have hsuc : ¬ (dsStep roll char.death_saves).success ≥ 3 := by
        by_cases e1 : roll = 1
        · simp only [dsStep, if_pos e1]
          omega
        · by_cases e10 : roll ≥ 10
          · exfalso
            simp only [dsStep, if_neg e1, if_pos e10] at hf
            omega
          · simp only [dsStep, if_neg e1, if_neg e10]
            omega
      refine ⟨delChar st gid (strLower name), ?_, getChar_delChar_self st gid (strLower name) hnd⟩
      simp only [cmd_deathsave, hch]
      rw [if_neg hnp, if_neg h20, if_neg hsuc, if_pos hf]
    · intro h20 hs hf
      refine ⟨setChar st gid (strLower name) { char with death_saves := dsStep roll char.death_saves },
        ?_, { char with death_saves := dsStep roll char.death_saves },
        getChar_setChar_self .., rfl, rfl⟩
      simp only [cmd_deathsave, hch]
      rw [if_neg hnp, if_neg h20, if_neg (by omega), if_neg (by omega)]

/-- Witness for C1: rolling 15 on a dying character advances the success
counter. -/
theorem deathsave_spec_witness :
    ∃ st', cmd_deathsave storeC1 "g" "Bob" 15 =
        (.progress (dsStep 15 charC1.death_saves).success
          (dsStep 15 charC1.death_saves).failure, st') ∧
      ∃ c', getChar st' "g" (strLower "Bob") = some c' ∧
        c'.death_saves = dsStep 15 charC1.death_saves ∧ c'.hp = charC1.hp := by
  have h := (deathsave_spec storeC1 "g" "Bob" 15 charC1 (by decide) (by decide)
    (by decide) (by decide)).2 (by decide)
  exact h.2.2.2.2.2.2 (by decide) (by decide) (by decide)

/-! ## C5: leveling up -/

theorem one_le_levelUpHd (s : String) : 1 ≤ dictGetD s LEVEL_UP_HP 6 := by
  simp only [dictGetD, LEVEL_UP_HP, dictGet]
  split_ifs <;> simp

/-- C5: leveling an existing character increments its level by 1, adds
to max hp exactly the gain `max 1 (randint(1, class hp die) + floor((CON - 10) / 2))`,
sets hp to the new max hp, and adds one level-1 slot exactly when the
class is spell-capable (listed in `CLASS_SPELL_SLOTS`), leaving every
other slot level unchanged. -/
theorem levelup_spec (rng : ℕ) (st : Store) (gid name : String) (char : Character)
    (hch : getChar st gid (strLower name) = some char) :
    ∃ st', level_up_character rng st gid name = some st' ∧
    ∃ char', getChar st' gid (strLower name) = some char' ∧
      char'.level = char.level + 1 ∧
      (∃ r : ℤ, 1 ≤ r ∧ r ≤ (dictGetD (strLower char.cls) LEVEL_UP_HP 6 : ℕ) ∧
        char'.max_hp = char.max_hp +
          max 1 (r + get_con_mod (dictGetD "CON" char.stats 10))) ∧
      char'.hp = char'.max_hp ∧
      dictGetD (.inl 1) char'.slots 0 =
        dictGetD (.inl 1) char.slots 0 + (if spellCapable char.cls then 1 else 0) ∧
      (∀ k : SlotKey, k ≠ .inl 1 → dictGet k char'.slots = dictGet k char.slots) := by
  have hd1 : 1 ≤ dictGetD (strLower char.cls) LEVEL_UP_HP 6 := one_le_levelUpHd _
  simp only [level_up_character, hch]
  refine ⟨_, rfl, _, getChar_setChar_self .., rfl, ?_, rfl, ?_, ?_⟩
  · refine ⟨1 + ((rng % dictGetD (strLower char.cls) LEVEL_UP_HP 6 : ℕ) : ℤ), by omega, ?_, ?_⟩
    · have := Nat.mod_lt rng (show 0 < dictGetD (strLower char.cls) LEVEL_UP_HP 6 by omega)
      push_cast
      omega
    · show char.max_hp + _ = char.max_hp + _
      split_ifs <;> omega
  · by_cases hcap : spellCapable char.cls
    · have hcap' := hcap
      unfold spellCapable at hcap'
      simp only [hcap', if_pos hcap, if_true]
      simp [dictGetD, dictGet_set_self]
    · have hcap' : ¬ (dictGet (strLower char.cls) (CLASS_SPELL_SLOTS)).isSome = true := hcap
      simp only [hcap', if_neg hcap, if_false, Bool.false_eq_true]
      simp
  · intro k hk
    by_cases hcap : (dictGet (strLower char.cls) (CLASS_SPELL_SLOTS)).isSome = true
    · simp only [hcap, if_true]
      exact dictGet_set_ne _ _ _ _ hk
    · simp only [hcap, Bool.false_eq_true, if_false]

/-- Witness for C5 on a concrete fighter. -/
theorem levelup_spec_witness :
    ∃ st', level_up_character 0 storeC1 "g" "Bob" = some st' ∧
    ∃ char', getChar st' "g" (strLower "Bob") = some char' ∧
      char'.level = charC1.level + 1 ∧
      (∃ r : ℤ, 1 ≤ r ∧ r ≤ (dictGetD (strLower charC1.cls) LEVEL_UP_HP 6 : ℕ) ∧
        char'.max_hp = charC1.max_hp +
          max 1 (r + get_con_mod (dictGetD "CON" charC1.stats 10))) ∧
      char'.hp = char'.max_hp ∧
      dictGetD (.inl 1) char'.slots 0 =
        dictGetD (.inl 1) charC1.slots 0 + (if spellCapable charC1.cls then 1 else 0) ∧
      (∀ k : SlotKey, k ≠ .inl 1 → dictGet k char'.slots = dictGet k charC1.slots) :=
  levelup_spec 0 storeC1 "g" "Bob" charC1 (by decide)

/-! ## C3: does every hp-raising path reset the death saves? -/

/-- C3 counterexample: a reachable store holds a dying fighter with
advanced death-save counters; leveling it up raises hp above 0 but does
not reset the counters to zero. -/
theorem hp_positive_reset_counterexample :
    charC3.hp ≤ 0 ∧ charC3.death_saves ≠ ⟨0, 0⟩ ∧
    ∃ st', level_up_character 0 storeC3 "g" "Ash" = some st' ∧
      ∃ c', getChar st' "g" "ash" = some c' ∧ c'.hp > 0 ∧ c'.death_saves ≠ ⟨0, 0⟩ := by
  exact ⟨by decide, by decide, storeC3up, by decide, charC3up, by decide, by decide, by decide⟩

/-- C3 (amended): only the death-save natural-20 path resets the
counters while raising hp above 0; level-up and long rest raise hp to
max hp but leave the death-save counters exactly as they were. -/
theorem hp_positive_reset_amended (rng : ℕ) (st : Store) (gid name : String)
    (char : Character) (hch : getChar st gid (strLower name) = some char) :
    (∀ st', level_up_character rng st gid name = some st' →
      ∀ c', getChar st' gid (strLower name) = some c' →
        c'.death_saves = char.death_saves ∧ c'.hp = c'.max_hp) ∧
    (∀ st', cmd_longrest st gid name = some st' →
      ∀ c', getChar st' gid (strLower name) = some c' →
        c'.death_saves = char.death_saves ∧ c'.hp = char.max_hp) ∧
    (char.hp ≤ 0 →
      ∃ st', cmd_deathsave st gid name 20 = (.revived, st') ∧
        getChar st' gid (strLower name) =
          some { char with hp := 1, death_saves := ⟨0, 0⟩ }) := by
  refine ⟨?_, ?_, ?_⟩
  · intro st' hst' c' hc'
    simp only [level_up_character, hch, Option.some.injEq] at hst'
    subst hst'
    rw [getChar_setChar_self] at hc'
    cases hc'
    exact ⟨rfl, rfl⟩
  · intro st' hst' c' hc'
    simp only [cmd_longrest, hch, Option.some.injEq] at hst'
    subst hst'
    rw [getChar_setChar_self] at hc'
    cases hc'
    exact ⟨rfl, rfl⟩
  · intro hhp
    have hnp : ¬ char.hp > 0 := by omega
    refine ⟨setChar st gid (strLower name) { char with hp := 1, death_saves := ⟨0, 0⟩ },
      ?_, getChar_setChar_self ..⟩
    simp [cmd_deathsave, hch, hnp]

/-- Witness for the amended C3: a long rest on a dying character with
advanced counters restores hp without clearing the counters. -/
theorem hp_positive_reset_amended_witness :
    ∃ st', cmd_longrest storeC3 "g" "Ash" = some st' ∧
      ∀ c', getChar st' "g" (strLower "Ash") = some c' →
        c'.death_saves = charC3.death_saves ∧ c'.hp = charC3.max_hp := by
  have h := (hp_positive_reset_amended 0 storeC3 "g" "Ash" charC3 (by decide)).2.1
  exact ⟨setChar storeC3 "g" "ash"
    { charC3 with slots := [], hp := charC3.max_hp }, by decide,
    fun c' hc' => h _ (by decide) c' hc'⟩

/-! ## C4: the JSON persistence round trip -/

theorem saveLoadSlots_eq_self (slots : List (SlotKey × ℤ))
    (h : ∀ kv ∈ slots, kv.1.isRight) : saveLoadSlots slots = slots := by
  unfold saveLoadSlots
  rw [List.map_congr_left, List.map_id']
  intro kv hkv
  have hr := h kv hkv
  rcases kv with ⟨k | s, v⟩
  · simp [Sum.isRight] at hr
  · rfl

/-- C4 counterexample: a store holding a freshly generated wizard (its
slot mapping keyed by the Python ints of `CLASS_SPELL_SLOTS`) is not
restored identically by save followed by load: the slot keys come back
as decimal strings. -/
theorem save_load_counterexample : save_load storeC4 ≠ storeC4 := by decide

/-- C4 (amended): save followed by load rewrites every int slot key to
its decimal string and preserves everything else; it is the identity
exactly on stores whose slot mappings are already entirely
string-keyed (such as any store that has been loaded from disk). -/
theorem save_load_spec (st : Store)
    (h : ∀ g ∈ st.characters, ∀ nc ∈ g.2, ∀ kv ∈ nc.2.slots, kv.1.isRight) :
    save_load st = st := by
  cases st with
  | mk chars combats =>
    simp only [save_load, Store.mk.injEq, and_true]
    rw [List.map_congr_left, List.map_id']
    intro g hg
    rcases g with ⟨gname, gchars⟩
    simp only [Prod.mk.injEq, true_and]
    rw [List.map_congr_left, List.map_id']
    intro nc hnc
    rcases nc with ⟨nm, c⟩
    simp only [Prod.mk.injEq, true_and, saveLoadChar]
    rw [saveLoadSlots_eq_self c.slots (h (gname, gchars) hg (nm, c) hnc)]

/-- Witness for the amended C4 on a string-keyed store. -/
theorem save_load_spec_witness : save_load storeC4s = storeC4s :=
  save_load_spec storeC4s (by
    intro g hg nc hnc kv hkv
    simp only [storeC4s, List.mem_singleton] at hg
    subst hg
    simp only [List.mem_singleton] at hnc
    subst hnc
    fin_cases hkv <;> rfl)

/-! ## C6 and C9: spell casting -/

theorem resolveDamage_ne_insufficient (rng : ℕ → ℕ) (detail : SpellDetail) (lvl l : ℤ) :
    resolveDamage rng detail lvl ≠ .insufficientSlot l := by
  cases hE : get_damage_expr_from_spell detail lvl with
  | none => simp [resolveDamage, hE]
  | some expr =>
    cases hP : parse_simple_dice rng expr with
    | none => simp [resolveDamage, hE, hP]
    | some r => simp [resolveDamage, hE, hP]

/-- C6: for a cast of a spell of positive level, a slot count of zero at
that level fails with InsufficientResource and changes nothing; a
positive count consumes exactly one slot at that level, with the new
state fixed before (and independently of) damage resolution, so a
damage expression the dice engine rejects still leaves the slot
consumed; concretely, with slots {2: 1} a level-2 cast succeeds once
leaving {2: 0} and an immediate second attempt returns
InsufficientResource. -/
theorem cast_slot_spec (provider : String → Option SpellDetail) (rng : ℕ → ℕ)
    (st : Store) (gid name spell_name : String) (char : Character) (found : String)
    (detail : SpellDetail)
    (hch : getChar st gid (strLower name) = some char)
    (hfound : char.spells.find? (fun s => strLower s = strLower spell_name) = some found)
    (hdet : provider (to_api_slug found) = some detail)
    (hlvl : 0 < detail.level) :
    (dictGetD (.inl detail.level) char.slots 0 ≤ 0 →
      cast_spell_for_char provider rng st gid name spell_name =
        (.insufficientSlot detail.level, st)) ∧
    (0 < dictGetD (.inl detail.level) char.slots 0 →
      ∀ res st', cast_spell_for_char provider rng st gid name spell_name = (res, st') →
        res = resolveDamage rng detail detail.level ∧
        res ≠ .insufficientSlot detail.level ∧
        ∃ char', getChar st' gid (strLower name) = some char' ∧
          dictGetD (.inl detail.level) char'.slots 0 =
            dictGetD (.inl detail.level) char.slots 0 - 1 ∧
          (∀ k : SlotKey, k ≠ .inl detail.level →
            dictGet k char'.slots = dictGet k char.slots)) ∧
    (∃ st1, cast_spell_for_char providerC6 rng storeC6 "g" "Mia" "Zap" =
        (.castDesc, st1) ∧
      (∃ c1, getChar st1 "g" "mia" = some c1 ∧ c1.slots = [(.inl 2, 0)]) ∧
      cast_spell_for_char providerC6 rng st1 "g" "Mia" "Zap" =
        (.insufficientSlot 2, st1)) := by
  refine ⟨?_, ?_, ?_⟩
  · intro hz
    simp only [cast_spell_for_char, hch, hfound, hdet]
    rw [if_pos hlvl, if_pos hz]
  · intro hpos res st' heq
    simp only [cast_spell_for_char, hch, hfound, hdet] at heq
    rw [if_pos hlvl, if_neg (by omega)] at heq
    injection heq with h1 h2
    subst h1
    subst h2
    refine ⟨rfl, resolveDamage_ne_insufficient rng detail detail.level detail.level,
      { char with slots := dictSet (.inl detail.level) (dictGetD (.inl detail.level) char.slots 0 - 1) char.slots },
      getChar_setChar_self .., ?_, ?_⟩
    · simp [dictGetD, dictGet_set_self]
    · intro k hk
      exact dictGet_set_ne _ _ _ _ hk
  · exact ⟨storeC6after, rfl, ⟨charC6after, rfl, rfl⟩, rfl⟩

/-- Witness for C6 on the {2: 1} store: the first cast consumes the
slot, the second fails with InsufficientResource. -/
theorem cast_slot_spec_witness :
    ∃ st1, cast_spell_for_char providerC6 (fun _ => 0) storeC6 "g" "Mia" "Zap" =
        (.castDesc, st1) ∧
      (∃ c1, getChar st1 "g" "mia" = some c1 ∧ c1.slots = [(.inl 2, 0)]) ∧
      cast_spell_for_char providerC6 (fun _ => 0) st1 "g" "Mia" "Zap" =
        (.insufficientSlot 2, st1) :=
  (cast_slot_spec providerC6 (fun _ => 0) storeC6 "g" "Mia" "Zap" charC6 "Zap"
    ⟨2, none, none, ["a zap"]⟩ (by decide) (by decide) (by decide) (by decide)).2.2

/-- C9: every failure of cast before the slot-consumption point — the
character absent, the spell not known under case-insensitive matching,
or the provider returning no spell detail — returns the corresponding
error with the entire session store (slot mappings included) unchanged. -/
theorem cast_atomic_spec (provider : String → Option SpellDetail) (rng : ℕ → ℕ)
    (st : Store) (gid name spell_name : String) :
    (getChar st gid (strLower name) = none →
      cast_spell_for_char provider rng st gid name spell_name = (.notFound, st)) ∧
    (∀ char, getChar st gid (strLower name) = some char →
      (char.spells.find? (fun s => strLower s = strLower spell_name) = none →
        cast_spell_for_char provider rng st gid name spell_name = (.unknownSpell, st)) ∧
      (∀ found, char.spells.find? (fun s => strLower s = strLower spell_name) = some found →
        provider (to_api_slug found) = none →
          cast_spell_for_char provider rng st gid name spell_name = (.providerFail, st))) := by
  refine ⟨?_, ?_⟩
  · intro h
    simp [cast_spell_for_char, h]
  · intro char hch
    refine ⟨?_, ?_⟩
    · intro h
      simp [cast_spell_for_char, hch, h]
    · intro found hf hp
      simp [cast_spell_for_char, hch, hf, hp]

/-- Witness for C9: casting from a store without the character changes
nothing. -/
theorem cast_atomic_spec_witness :
    cast_spell_for_char (fun _ => none) (fun _ => 0) ⟨[], []⟩ "g" "Mia" "zap" =
      (.notFound, ⟨[], []⟩) :=
  (cast_atomic_spec (fun _ => none) (fun _ => 0) ⟨[], []⟩ "g" "Mia" "zap").1 (by decide)

/-! ## C7: combat damage -/

theorem damageFirst_none (nameLower : String) (amount : ℤ) (l : List Combatant)
    (h : ∀ x ∈ l, strLower x.name ≠ nameLower) :
    damageFirst nameLower amount l = none := by
  induction l with
  | nil => rfl
  | cons x xs ih =>
    simp only [damageFirst, if_neg (h x (List.mem_cons_self _ _))]
    rw [ih (fun y hy => h y (List.mem_cons_of_mem _ hy))]

theorem damageFirst_append (nameLower : String) (amount : ℤ) (pre : List Combatant)
    (e : Combatant) (post : List Combatant)
    (hpre : ∀ x ∈ pre, strLower x.name ≠ nameLower) (he : strLower e.name = nameLower) :
    damageFirst nameLower amount (pre ++ e :: post) =
      some (pre ++ { e with hp := e.hp - amount } :: post, e.hp - amount) := by
  induction pre with
  | nil => simp [damageFirst, he]
  | cons x xs ih =>
    simp only [List.cons_append, damageFirst,
      if_neg (hpre x (List.mem_cons_self _ _))]
    rw [List.append_eq, ih (fun y hy => hpre y (List.mem_cons_of_mem _ hy))]

theorem getChar_set_combats (st : Store) (x : List (String × Combat)) (gid nm : String) :
    getChar { st with combats := x } gid nm = getChar st gid nm := rfl

/-- C7: with an active encounter, combat damage locates the first
combatant whose name matches case-insensitively (reporting not-found and
changing nothing when none does), lowers its hp by the amount without
clamping, keeps every other combatant and every other guild's combat
unchanged, and — exactly when the resulting hp is ≤ 0 and a character of
the same lower-cased name exists in the guild — forces that character's
hp to exactly 0 (not the possibly negative combatant value) with its
death-save counters reset to zero, leaving all other characters
untouched; when the resulting hp is positive or no such character
exists, the character map does not change at all. -/
theorem combat_damage_spec (st : Store) (gid name : String) (amount : ℤ) (combat : Combat)
    (hc : dictGet gid st.combats = some combat) :
    ((∀ x ∈ combat.order, strLower x.name ≠ strLower name) →
      cmd_combat_damage st gid name amount = (.notFound, st)) ∧
    (∀ pre e post, combat.order = pre ++ e :: post →
      (∀ x ∈ pre, strLower x.name ≠ strLower name) → strLower e.name = strLower name →
      ∃ st', cmd_combat_damage st gid name amount = (.applied (e.hp - amount), st') ∧
        dictGet gid st'.combats =
          some { combat with order := pre ++ { e with hp := e.hp - amount } :: post } ∧
        (∀ g, g ≠ gid → dictGet g st'.combats = dictGet g st.combats) ∧
        ((0 < e.hp - amount ∨ getChar st gid (strLower name) = none) →
          st'.characters = st.characters) ∧
        (e.hp - amount ≤ 0 →
          ∀ c, getChar st gid (strLower name) = some c →
            getChar st' gid (strLower name) =
              some { c with hp := 0, death_saves := ⟨0, 0⟩ } ∧
            (∀ g n, ¬(g = gid ∧ n = strLower name) →
              getChar st' g n = getChar st g n))) := by
  constructor
  · intro h
    simp only [cmd_combat_damage, hc, damageFirst_none (strLower name) amount _ h]
  · intro pre e post hord hpre he
    have hdf := damageFirst_append (strLower name) amount pre e post hpre he
    by_cases hle : e.hp - amount ≤ 0
    · cases hgc : getChar st gid (strLower name) with
      | none =>
        refine ⟨{ st with combats := dictSet gid { combat with order := pre ++ { e with hp := e.hp - amount } :: post } st.combats }, ?_, ?_, ?_, ?_, ?_⟩
        · simp only [cmd_combat_damage, hc, hord, hdf]
          rw [if_pos hle, getChar_set_combats, hgc]
        · exact dictGet_set_self ..
        · intro g hg
          exact dictGet_set_ne _ _ _ _ hg
        · intro _
          rfl
        · intro _ c hcg
          exact Option.noConfusion hcg
      | some c0 =>
        refine ⟨setChar { st with combats := dictSet gid { combat with order := pre ++ { e with hp := e.hp - amount } :: post } st.combats } gid (strLower name) { c0 with hp := 0, death_saves := ⟨0, 0⟩ }, ?_, ?_, ?_, ?_, ?_⟩
        · simp only [cmd_combat_damage, hc, hord, hdf]
          rw [if_pos hle, getChar_set_combats, hgc]
        · exact dictGet_set_self ..
        · intro g hg
          exact dictGet_set_ne _ _ _ _ hg
        · rintro (h | h)
          · omega
          · exact Option.noConfusion h
        · intro _ c hcg
          injection hcg with hcc
          subst hcc
          exact ⟨getChar_setChar_self .., fun g n hg => getChar_setChar_other _ _ _ _ _ _ hg⟩
    · refine ⟨{ st with combats := dictSet gid { combat with order := pre ++ { e with hp := e.hp - amount } :: post } st.combats }, ?_, ?_, ?_, ?_, ?_⟩
      · simp only [cmd_combat_damage, hc, hord, hdf]
        rw [if_neg hle]
      · exact dictGet_set_self ..
      · intro g hg
        exact dictGet_set_ne _ _ _ _ hg
      · intro _
        rfl
      · intro h
        omega

/-- Witness for C7: damaging the combatant Bob below 0 zeroes the linked
character and resets its death saves. -/
theorem combat_damage_spec_witness :
    ∃ st', cmd_combat_damage storeC7 "g" "Bob" 5 = (.applied (3 - 5), st') ∧
      getChar st' "g" (strLower "Bob") =
        some { charC1 with hp := 0, death_saves := ⟨0, 0⟩ } := by
  have h := (combat_damage_spec storeC7 "g" "Bob" 5
      ⟨0, [⟨"Wolf", 11, 14, [], 13⟩, ⟨"Bob", 3, 12, [], 16⟩]⟩ (by decide)).2
    [⟨"Wolf", 11, 14, [], 13⟩] ⟨"Bob", 3, 12, [], 16⟩ [] (by decide) (by decide) (by decide)
  obtain ⟨st', heq, _, _, _, hchar⟩ := h
  exact ⟨st', heq, (hchar (by decide) charC1 (by decide)).1⟩

end DndBot
